import Mathlib

/-!
# Verification of the csv-analytics-dashboard aggregation core

Shallow embedding of the booking-analytics aggregation pipeline:

* `calculateStats` / `statsMap` — the per-accommodation aggregation of
  `src/components/dashboard/TopAccommodationsTable.tsx` (lines 39–99).
* `combineStats` — the comparison-delta computation (lines 105–117).
* `sortStats` / `rankTop` — the sort-descending-by-revenue and take-30
  ranking step (line 118).
* `yearPred` / `datePred` / `filteredData` / `comparisonData` — the record
  filter of the dashboard layout component (the unnamed source file,
  lines 33–86).

JavaScript numbers are modelled by `JVal`: either a finite rational or one
of the non-finite values `NaN`, `Infinity`, `-Infinity`.  Finite arithmetic
is exact (rationals) rather than IEEE-754 rounded; the claims checked here
concern sums, counts and the finite/non-finite distinction, none of which
depend on rounding.  Dates are modelled at day granularity (days since the
Unix epoch), matching the use of `differenceInDays` and calendar-year
extraction in the source.
-/

/-- A JavaScript number: `NaN`, `Infinity`, `-Infinity`, or a finite value
(modelled as an exact rational). -/
inductive JVal where
  | nan : JVal
  | inf : JVal
  | ninf : JVal
  | fin : ℚ → JVal
deriving DecidableEq, Repr

namespace JVal

/-- JavaScript `+` on numbers: `NaN` is absorbing, opposite infinities give
`NaN`, an infinity absorbs finite values. -/
def add (x y : JVal) : JVal :=
  match x, y with
  | .nan, _ => .nan
  | .fin a, .fin b => .fin (a + b)
  | .fin _, .nan => .nan
  | .fin _, .inf => .inf
  | .fin _, .ninf => .ninf
  | .inf, .nan => .nan
  | .inf, .inf => .inf
  | .inf, .ninf => .nan
  | .inf, .fin _ => .inf
  | .ninf, .nan => .nan
  | .ninf, .inf => .nan
  | .ninf, .ninf => .ninf
  | .ninf, .fin _ => .ninf

/-- JavaScript `-` on numbers. -/
def sub (x y : JVal) : JVal :=
  match x, y with
  | .nan, _ => .nan
  | .fin a, .fin b => .fin (a - b)
  | .fin _, .nan => .nan
  | .fin _, .inf => .ninf
  | .fin _, .ninf => .inf
  | .inf, .nan => .nan
  | .inf, .inf => .nan
  | .inf, .ninf => .inf
  | .inf, .fin _ => .inf
  | .ninf, .nan => .nan
  | .ninf, .inf => .ninf
  | .ninf, .ninf => .nan
  | .ninf, .fin _ => .ninf

/-- JavaScript `/` on numbers: division by zero yields a signed infinity
(`0/0` yields `NaN`); the sign of zero is not tracked (zero counts as
positive), which matches the only zeros the pipeline produces. -/
def div (x y : JVal) : JVal :=
  match x, y with
  | .nan, _ => .nan
  | .fin a, .fin b =>
      if b = 0 then (if 0 < a then .inf else if a < 0 then .ninf else .nan)
      else .fin (a / b)
  | .fin _, .nan => .nan
  | .fin _, .inf => .fin 0
  | .fin _, .ninf => .fin 0
  | .inf, .nan => .nan
  | .inf, .inf => .nan
  | .inf, .ninf => .nan
  | .inf, .fin b => if b < 0 then .ninf else .inf
  | .ninf, .nan => .nan
  | .ninf, .inf => .nan
  | .ninf, .ninf => .nan
  | .ninf, .fin b => if b < 0 then .inf else .ninf

/-- `x > 0` as JavaScript evaluates it (`NaN > 0` is false). -/
def gtZero (x : JVal) : Bool :=
  match x with
  | .fin a => decide (0 < a)
  | .inf => true
  | _ => false

/-- A finite (neither `NaN` nor infinite) value. -/
def isFinite (x : JVal) : Bool :=
  match x with
  | .fin _ => true
  | _ => false

instance : Add JVal := ⟨JVal.add⟩

instance : Zero JVal := ⟨JVal.fin 0⟩

theorem add_def (x y : JVal) : x + y = JVal.add x y := rfl

theorem zero_def : (0 : JVal) = JVal.fin 0 := rfl

theorem jval_add_comm (x y : JVal) : x + y = y + x := by
  cases x <;> cases y <;> simp [add_def, JVal.add] <;> ring

theorem jval_add_assoc (x y z : JVal) : x + y + z = x + (y + z) := by
  cases x <;> cases y <;> cases z <;> simp [add_def, JVal.add] <;> ring

theorem jval_zero_add (x : JVal) : 0 + x = x := by
  cases x <;> simp [add_def, zero_def, JVal.add]

theorem jval_add_zero (x : JVal) : x + 0 = x := by
  cases x <;> simp [add_def, zero_def, JVal.add]

instance : AddCommMonoid JVal where
  add_assoc := jval_add_assoc
  zero_add := jval_zero_add
  add_zero := jval_add_zero
  add_comm := jval_add_comm
  nsmul := nsmulRec

theorem fin_add_fin (a b : ℚ) : (JVal.fin a) + (JVal.fin b) = JVal.fin (a + b) := rfl

end JVal

/-! ## `parseFloat`

Model of JavaScript `parseFloat`: skip leading whitespace, read an optional
sign, then either `Infinity` or the longest decimal-literal prefix
(digits, optional fraction, optional well-formed exponent).  If no digits
can be consumed the result is `NaN`.  Finite results are exact rationals. -/

/-- Value of a digit string (most significant first). -/
def digitsToNat (l : List Char) : ℕ :=
  l.foldl (fun acc c => acc * 10 + (c.toNat - 48)) 0

/-- Exponent part: an optional sign and digits after `e`/`E`; an
ill-formed exponent is ignored (contributes `0`), as in JavaScript. -/
def parseExpPart (l : List Char) : ℤ :=
  let signed : Bool × List Char :=
    match l with
    | '-' :: t => (true, t)
    | '+' :: t => (false, t)
    | _ => (false, l)
  let ds := signed.2.takeWhile Char.isDigit
  if ds.isEmpty then 0
  else if signed.1 then -(digitsToNat ds : ℤ) else (digitsToNat ds : ℤ)

/-- Mantissa and exponent of the decimal-literal prefix of `l`, or `none`
when `l` has no leading digits (before or after a decimal point). -/
def parseMantissa (l : List Char) : Option ℚ :=
  let intPart := l.takeWhile Char.isDigit
  let rest := l.dropWhile Char.isDigit
  let fracAndRest : List Char × List Char :=
    match rest with
    | '.' :: t => (t.takeWhile Char.isDigit, t.dropWhile Char.isDigit)
    | _ => ([], rest)
  let fracPart := fracAndRest.1
  if intPart.isEmpty ∧ fracPart.isEmpty then none
  else
    let mant : ℚ := (digitsToNat (intPart ++ fracPart) : ℚ) / (10 : ℚ) ^ fracPart.length
    let e : ℤ :=
      match fracAndRest.2 with
      | 'e' :: t => parseExpPart t
      | 'E' :: t => parseExpPart t
      | _ => 0
    some (mant * (10 : ℚ) ^ e)

/-- JavaScript `parseFloat`. -/
def jsParseFloat (s : String) : JVal :=
  let l := s.data.dropWhile Char.isWhitespace
  let signed : Bool × List Char :=
    match l with
    | '-' :: t => (true, t)
    | '+' :: t => (false, t)
    | _ => (false, l)
  match signed.2 with
  | 'I' :: 'n' :: 'f' :: 'i' :: 'n' :: 'i' :: 't' :: 'y' :: _ =>
      if signed.1 then JVal.ninf else JVal.inf
  | rest =>
      match parseMantissa rest with
      | none => JVal.nan
      | some q => JVal.fin (if signed.1 then -q else q)

/-! ## Data model -/

/-- A JavaScript `Date`: either an Invalid Date (internal time `NaN`) or a
valid date, modelled at day granularity as days since 1970-01-01. -/
inductive JDate where
  | invalid : JDate
  | valid : ℤ → JDate
deriving DecidableEq, Repr

/-- A monetary field as it arrives from the CSV layer: already a number, a
string, or absent (`undefined`/`null`). -/
inductive MoneyVal where
  | num : ℚ → MoneyVal
  | str : String → MoneyVal
  | missing : MoneyVal
deriving DecidableEq, Repr

/-- A booking record (`BookingData`).  Optional string fields model
JavaScript `undefined`; the empty string is falsy like `undefined` where
the source uses `||` fallbacks. -/
structure Booking where
  serviceName : Option String := none
  serviceCity : Option String := none
  region : Option String := none
  bookingDate : Option JDate := none
  arrivalDate : Option JDate := none
  departureDate : Option JDate := none
  totalPrice : MoneyVal := MoneyVal.missing
  commission : MoneyVal := MoneyVal.missing
  cancelled : Bool := false
deriving DecidableEq, Repr

/-- `value || fallback` for an optional string (both `undefined` and the
empty string are falsy). -/
def orFalsy (o : Option String) (fallback : String) : String :=
  match o with
  | none => fallback
  | some s => if s = "" then fallback else s

/-- Grouping key: `booking.serviceName || 'Unbekannt'` (line 51). -/
def keyOf (b : Booking) : String := orFalsy b.serviceName "Unbekannt"

/-- Bucket city on creation: `booking.serviceCity || 'Unbekannt'` (line 54). -/
def cityOf (b : Booking) : String := orFalsy b.serviceCity "Unbekannt"

/-- Nights computation (lines 63–77): `differenceInDays(departure, arrival)`
when both dates are present, negative values clamped to `0`; `0` when a
date is absent or invalid (an Invalid Date yields `NaN`, and `NaN > 0` is
false, so the clamp produces `0`). -/
def nightsOf (b : Booking) : ℕ :=
  match b.arrivalDate, b.departureDate with
  | some (JDate.valid a), some (JDate.valid d) => (d - a).toNat
  | _, _ => 0

/-- Price coercion (line 79): a number is used as-is, otherwise
`parseFloat(value || '0')`. -/
def coerceMoney (v : MoneyVal) : JVal :=
  match v with
  | MoneyVal.num q => JVal.fin q
  | MoneyVal.missing => jsParseFloat "0"
  | MoneyVal.str s => if s = "" then jsParseFloat "0" else jsParseFloat s

/-- The coerced `totalPrice` of a record. -/
def priceOf (b : Booking) : JVal := coerceMoney b.totalPrice

/-- The coerced `commission` of a record. -/
def commissionOf (b : Booking) : JVal := coerceMoney b.commission

/-- Revenue contribution (line 83): zero when cancelled. -/
def finalPrice (b : Booking) : JVal :=
  if b.cancelled then JVal.fin 0 else priceOf b

/-- Commission contribution (line 84): zero when cancelled. -/
def finalCommission (b : Booking) : JVal :=
  if b.cancelled then JVal.fin 0 else commissionOf b

/-- Nights contribution (line 86): zero when cancelled. -/
def finalNights (b : Booking) : ℕ :=
  if b.cancelled then 0 else nightsOf b

/-- One aggregation bucket (the `Map` value type, lines 40–48). -/
structure Bucket where
  name : String
  city : String
  revenue : JVal
  bookings : ℕ
  commission : JVal
  cancelledBookings : ℕ
  nights : ℕ
deriving DecidableEq, Repr

/-- The bucket created for a record whose key is not yet in the map
(lines 52–60). -/
def freshBucket (b : Booking) : Bucket :=
  { name := keyOf b
    city := cityOf b
    revenue := JVal.fin 0
    bookings := 0
    commission := JVal.fin 0
    cancelledBookings := 0
    nights := 0 }

/-- The update written back by `stats.set` (lines 88–95): spread of the
current bucket with the five accumulators advanced. -/
def bumpBucket (cur : Bucket) (b : Booking) : Bucket :=
  { cur with
    revenue := cur.revenue + finalPrice b
    bookings := cur.bookings + 1
    commission := cur.commission + finalCommission b
    cancelledBookings := cur.cancelledBookings + (if b.cancelled then 1 else 0)
    nights := cur.nights + finalNights b }

/-- `Map.get` over the insertion-ordered association list modelling the
JavaScript `Map`. -/
def alGet : List (String × Bucket) → String → Option Bucket
  | [], _ => none
  | (k0, v0) :: t, k => if k0 = k then some v0 else alGet t k

/-- `Map.set`: replaces in place when the key exists (keeping its position
in insertion order), otherwise appends. -/
def alSet : List (String × Bucket) → String → Bucket → List (String × Bucket)
  | [], k, v => [(k, v)]
  | (k0, v0) :: t, k, v =>
      if k0 = k then (k, v) :: t else (k0, v0) :: alSet t k v

/-- The body of the `forEach` (lines 50–96) for one record. -/
def statsStep (m : List (String × Bucket)) (b : Booking) : List (String × Bucket) :=
  alSet m (keyOf b) (bumpBucket ((alGet m (keyOf b)).getD (freshBucket b)) b)

/-- The fully built `Map` after iterating over all records. -/
def statsMap (l : List Booking) : List (String × Bucket) :=
  l.foldl statsStep []

/-- `calculateStats` (lines 39–99): `Array.from(stats.values())`, i.e. the
buckets in key insertion order. -/
def calculateStats (l : List Booking) : List Bucket :=
  (statsMap l).map Prod.snd

/-- Cancellation rate as the table renders it (line 257):
`bookings > 0 ? cancelledBookings / bookings : 0`. -/
def cancellationRate (bk : Bucket) : ℚ :=
  if 0 < bk.bookings then (bk.cancelledBookings : ℚ) / (bk.bookings : ℚ) else 0

/-! ## Comparator and ranker (lines 105–118) -/

/-- A row of the combined statistics: the current bucket's fields spread
together with the five optional delta fields (`undefined` is `none`). -/
structure CStat where
  name : String
  city : String
  revenue : JVal
  bookings : ℕ
  commission : JVal
  cancelledBookings : ℕ
  nights : ℕ
  revenueChange : Option JVal
  bookingsChange : Option JVal
  commissionChange : Option JVal
  cancellationRateChange : Option JVal
  nightsChange : Option JVal
deriving DecidableEq, Repr

/-- Relative delta `(current - prior) / prior` in JavaScript arithmetic. -/
def relDelta (cur prior : JVal) : JVal := JVal.div (JVal.sub cur prior) prior

/-- The combined row for one current bucket (lines 106–117): the first
comparison bucket with the same name is looked up with `find`; every delta
is computed by unguarded division when it exists, and left `undefined`
otherwise. -/
def combineOne (comparisonStats : List Bucket) (c : Bucket) : CStat :=
  match comparisonStats.find? (fun p => p.name = c.name) with
  | none =>
      { name := c.name, city := c.city, revenue := c.revenue,
        bookings := c.bookings, commission := c.commission,
        cancelledBookings := c.cancelledBookings, nights := c.nights,
        revenueChange := none, bookingsChange := none,
        commissionChange := none, cancellationRateChange := none,
        nightsChange := none }
  | some p =>
      { name := c.name, city := c.city, revenue := c.revenue,
        bookings := c.bookings, commission := c.commission,
        cancelledBookings := c.cancelledBookings, nights := c.nights,
        revenueChange := some (relDelta c.revenue p.revenue),
        bookingsChange := some (relDelta (JVal.fin c.bookings) (JVal.fin p.bookings)),
        commissionChange := some (relDelta c.commission p.commission),
        cancellationRateChange := some
          (JVal.sub (JVal.div (JVal.fin c.cancelledBookings) (JVal.fin c.bookings))
            (JVal.div (JVal.fin p.cancelledBookings) (JVal.fin p.bookings))),
        nightsChange := some (relDelta (JVal.fin c.nights) (JVal.fin p.nights)) }

/-- The `currentStats.map` of lines 105–117. -/
def combineStats (currentStats comparisonStats : List Bucket) : List CStat :=
  currentStats.map (combineOne comparisonStats)

/-- The sort comparator `(a, b) => b.revenue - a.revenue` keeps `a` before
`b` exactly when the comparator value is not positive (`NaN` ties). -/
def sortsBefore (a b : CStat) : Bool :=
  !(JVal.gtZero (JVal.sub b.revenue a.revenue))

/-- Stable insertion of `a` into `l`: `a` goes before the first element it
need not follow.  Together with `sortStats` this models the stable
`Array.prototype.sort`. -/
def insertStat (a : CStat) : List CStat → List CStat
  | [] => [a]
  | b :: l => if sortsBefore a b then a :: b :: l else b :: insertStat a l

/-- Stable sort by the revenue comparator (line 118's `.sort`). -/
def sortStats : List CStat → List CStat
  | [] => []
  | a :: l => insertStat a (sortStats l)

/-- `.sort(...).slice(0, 30)` (line 118). -/
def rankTop (l : List CStat) : List CStat := (sortStats l).take 30

/-- `comparisonData ? calculateStats(comparisonData) : []` (line 102). -/
def comparisonStatsOf (comparisonData : Option (List Booking)) : List Bucket :=
  match comparisonData with
  | some l => calculateStats l
  | none => []

/-- The whole `accommodationStats` memo (lines 38–119): aggregate the
current data, aggregate the comparison data when supplied (else use the
empty list), combine, sort descending by revenue, take 30. -/
def accommodationStats (data : List Booking) (comparisonData : Option (List Booking)) :
    List CStat :=
  rankTop (combineStats (calculateStats data) (comparisonStatsOf comparisonData))

/-! ## Record filter (dashboard layout component, lines 33–86)

The `dateRange` state variable is used (lines 52–57) but its `useState`
declaration is not part of the captured source; from its use
(`dateRange.start && dateRange.end`, fed to `startOfDay`/`endOfDay`) it is
an object of two nullable dates, modelled here as a pair of `Option JDate`
passed as a parameter. -/

/-- Calendar year of a day number (days since 1970-01-01), proleptic
Gregorian — the civil-from-days algorithm. -/
def civilYear (z : ℤ) : ℤ :=
  let z2 := z + 719468
  let era := Int.fdiv z2 146097
  let doe := z2 - era * 146097
  let yoe := Int.fdiv (doe - Int.fdiv doe 1460 + Int.fdiv doe 36524 - Int.fdiv doe 146096) 365
  let y := yoe + era * 400
  let doy := doe - (365 * yoe + Int.fdiv yoe 4 - Int.fdiv yoe 100)
  let mp := Int.fdiv (5 * doy + 2) 153
  let m := if mp < 10 then mp + 3 else mp - 9
  if m ≤ 2 then y + 1 else y

/-- `new Date(x)`: `undefined` yields an Invalid Date; a `Date` argument is
copied. -/
def jsNewDate (o : Option JDate) : JDate := o.getD JDate.invalid

/-- `.getFullYear()`: `NaN` (here `none`) on an Invalid Date. -/
def getFullYear (d : JDate) : Option ℤ :=
  match d with
  | JDate.invalid => none
  | JDate.valid day => some (civilYear day)

/-- The region test used by both modes (lines 39, 60–62, 79):
`!selectedRegion || booking.region === selectedRegion` — only the empty
string passes everything; any other selected string (including the
`'Alle Regionen'` sentinel) must match the record's region literally. -/
def regionPass (selectedRegion : String) (b : Booking) : Bool :=
  selectedRegion = "" || b.region = some selectedRegion

/-- Year-mode record predicate (lines 35–45 and 75–85):
`getFullYear(new Date(arrivalDate)) === year && region check`; an invalid
date gives `NaN === year`, which is false. -/
def yearPred (year : ℤ) (selectedRegion : String) (b : Booking) : Bool :=
  (match getFullYear (jsNewDate b.arrivalDate) with
   | some fy => fy = year
   | none => false)
  && regionPass selectedRegion b

/-- Date-mode record predicate (lines 47–69).  When both range endpoints
are present, `isWithinInterval` throws on an invalid interval (an invalid
endpoint or `start > end`), and the `catch` turns that into `false`; an
invalid booking date compares as `NaN` and fails the interval test.  When
either endpoint is absent the date is not inspected at all. -/
def datePred (rangeStart rangeEnd : Option JDate) (selectedRegion : String)
    (b : Booking) : Bool :=
  match rangeStart, rangeEnd with
  | some ds, some de =>
      match ds, de with
      | JDate.valid s, JDate.valid e =>
          if s ≤ e then
            (match jsNewDate b.arrivalDate with
             | JDate.valid t => decide (s ≤ t ∧ t ≤ e)
             | JDate.invalid => false)
            && regionPass selectedRegion b
          else false
      | _, _ => false
  | _, _ => regionPass selectedRegion b

/-- `filteredData` (lines 33–71). -/
def filteredData (data : List Booking) (isYearComparison : Bool) (year1 : ℤ)
    (rangeStart rangeEnd : Option JDate) (selectedRegion : String) : List Booking :=
  if isYearComparison then data.filter (yearPred year1 selectedRegion)
  else data.filter (datePred rangeStart rangeEnd selectedRegion)

/-- `comparisonData` (lines 73–86): `undefined` outside comparison mode. -/
def comparisonData (data : List Booking) (isYearComparison : Bool) (year2 : ℤ)
    (selectedRegion : String) : Option (List Booking) :=
  if isYearComparison then some (data.filter (yearPred year2 selectedRegion))
  else none

/-! ## Aggregation lemmas -/

theorem alGet_alSet (m : List (String × Bucket)) (k k' : String) (v : Bucket) :
    alGet (alSet m k v) k' = if k = k' then some v else alGet m k' := by
  induction m with
  | nil => simp [alGet, alSet]
  | cons h t ih =>
      obtain ⟨k0, v0⟩ := h
      by_cases h0 : k0 = k
      · subst h0
        by_cases h1 : k0 = k' <;> simp [alSet, alGet, h1]
      · simp only [alSet, if_neg h0, alGet]
        by_cases h1 : k0 = k'
        · subst h1
          simp [alGet, h0, if_neg (Ne.symm h0)]
        · simp [alGet, h1, ih]

/-- Reading a field (valued in any additive commutative monoid) out of an
optional bucket, with `0` for an absent bucket. -/
def fieldOf {M : Type} [AddCommMonoid M] (f : Bucket → M) (o : Option Bucket) : M :=
  match o with
  | none => 0
  | some bk => f bk

/-- Core characterization of the aggregation loop: any bucket field that
starts at zero on a fresh bucket and is advanced additively by the update
equals its value in the starting map plus the sum of the per-record
contributions of the records that hit the key. -/
theorem foldl_statsStep_field {M : Type} [AddCommMonoid M]
    (f : Bucket → M) (g : Booking → M)
    (h0 : ∀ b, f (freshBucket b) = 0)
    (hstep : ∀ c b, f (bumpBucket c b) = f c + g b)
    (l : List Booking) (m : List (String × Bucket)) (k : String) :
    fieldOf f (alGet (l.foldl statsStep m) k) =
      fieldOf f (alGet m k) + ((l.filter (fun b => decide (keyOf b = k))).map g).sum := by
  induction l generalizing m with
  | nil => simp [fieldOf]
  | cons b t ih =>
      rw [List.foldl_cons, ih]
      by_cases hk : keyOf b = k
      · have hget : alGet (statsStep m b) k =
            some (bumpBucket ((alGet m (keyOf b)).getD (freshBucket b)) b) := by
          rw [statsStep, alGet_alSet, if_pos hk]
        rw [hget]
        have hcur : fieldOf f (some (bumpBucket ((alGet m (keyOf b)).getD (freshBucket b)) b)) =
            fieldOf f (alGet m k) + g b := by
          rw [← hk]
          cases hm : alGet m (keyOf b) with
          | none => simp [fieldOf, hstep, h0]
          | some c => simp [fieldOf, hstep]
        rw [hcur, List.filter_cons, if_pos (by simp [hk])]
        simp [add_assoc]
      · have hget : alGet (statsStep m b) k = alGet m k := by
          rw [statsStep, alGet_alSet, if_neg hk]
        rw [hget, List.filter_cons, if_neg (by simp [hk])]

/-- A key is absent from the built map exactly when no record maps to it. -/
theorem alGet_foldl_eq_none (l : List Booking) (m : List (String × Bucket)) (k : String) :
    alGet (l.foldl statsStep m) k = none ↔
      (alGet m k = none ∧ ∀ b ∈ l, keyOf b ≠ k) := by
  induction l generalizing m with
  | nil => simp
  | cons b t ih =>
      rw [List.foldl_cons, ih]
      constructor
      · rintro ⟨h1, h2⟩
        rw [statsStep, alGet_alSet] at h1
        by_cases hk : keyOf b = k
        · rw [if_pos hk] at h1; exact absurd h1 (by simp)
        · rw [if_neg hk] at h1
          exact ⟨h1, by simpa [hk] using h2⟩
      · rintro ⟨h1, h2⟩
        have hk : keyOf b ≠ k := h2 b (by simp)
        refine ⟨?_, fun x hx => h2 x (by simp [hx])⟩
        rw [statsStep, alGet_alSet, if_neg hk]
        exact h1

/-- Specialization to the empty starting map. -/
theorem alGet_statsMap_eq_none (l : List Booking) (k : String) :
    alGet (statsMap l) k = none ↔ ∀ b ∈ l, keyOf b ≠ k := by
  rw [statsMap, alGet_foldl_eq_none]
  simp [alGet]

/-- The `city` field is fixed by the first record (in iteration order) that
creates the bucket and is never touched afterwards. -/
theorem foldl_statsStep_city (l : List Booking) (m : List (String × Bucket)) (k : String) :
    (alGet (l.foldl statsStep m) k).map Bucket.city =
      ((alGet m k).map Bucket.city).or
        ((l.find? (fun b => decide (keyOf b = k))).map cityOf) := by
  induction l generalizing m with
  | nil => simp
  | cons b t ih =>
      rw [List.foldl_cons, ih]
      by_cases hk : keyOf b = k
      · have hget : alGet (statsStep m b) k =
            some (bumpBucket ((alGet m (keyOf b)).getD (freshBucket b)) b) := by
          rw [statsStep, alGet_alSet, if_pos hk]
        rw [hget, List.find?_cons_of_pos _ (by simp [hk])]
        cases hm : alGet m k with
        | none =>
            rw [← hk] at hm
            simp [hm, bumpBucket, freshBucket, Option.or]
        | some c =>
            rw [← hk] at hm
            simp [hm, bumpBucket, Option.or]
      · have hget : alGet (statsStep m b) k = alGet m k := by
          rw [statsStep, alGet_alSet, if_neg hk]
        rw [hget, List.find?_cons_of_neg _ (by simp [hk])]

/-- `Map.set` keeps the key list unchanged when the key exists, otherwise
appends the new key. -/
theorem alSet_keys (m : List (String × Bucket)) (k : String) (v : Bucket) :
    (alSet m k v).map Prod.fst =
      if k ∈ m.map Prod.fst then m.map Prod.fst else m.map Prod.fst ++ [k] := by
  induction m with
  | nil => simp [alSet]
  | cons h t ih =>
      obtain ⟨k0, v0⟩ := h
      by_cases h0 : k0 = k
      · subst h0
        simp [alSet]
      · simp only [alSet, if_neg h0, List.map_cons, ih, List.mem_cons]
        by_cases h1 : k ∈ t.map Prod.fst <;>
          simp [h1, Ne.symm h0]

/-- A key is readable exactly when it is in the key list. -/
theorem alGet_eq_none_iff_not_mem (m : List (String × Bucket)) (k : String) :
    alGet m k = none ↔ k ∉ m.map Prod.fst := by
  induction m with
  | nil => simp [alGet]
  | cons h t ih =>
      obtain ⟨k0, v0⟩ := h
      by_cases h0 : k0 = k
      · subst h0
        simp [alGet]
      · have h1 : ¬k = k0 := fun he => h0 he.symm
        rw [List.map_cons, List.mem_cons]
        simp only [alGet, if_neg h0]
        rw [ih]
        simp [h1]

/-- The aggregation map never duplicates a key. -/
theorem statsMap_keys_nodup (l : List Booking) : ((statsMap l).map Prod.fst).Nodup := by
  have main : ∀ (t : List Booking) (m : List (String × Bucket)),
      (m.map Prod.fst).Nodup → ((t.foldl statsStep m).map Prod.fst).Nodup := by
    intro t
    induction t with
    | nil => intro m hm; simpa using hm
    | cons b t2 ih =>
        intro m hm
        rw [List.foldl_cons]
        refine ih _ ?_
        rw [statsStep, alSet_keys]
        by_cases hmem : keyOf b ∈ m.map Prod.fst
        · simpa [hmem] using hm
        · rw [if_neg hmem]
          simpa [List.nodup_append, hmem] using hm
  simpa using main l [] (by simp)

/-- A sum of finite values is finite. -/
theorem sum_isFinite (l : List JVal) (h : ∀ x ∈ l, x.isFinite = true) :
    ∃ q : ℚ, l.sum = JVal.fin q := by
  induction l with
  | nil => exact ⟨0, rfl⟩
  | cons x t ih =>
      obtain ⟨q, hq⟩ := ih (fun y hy => h y (by simp [hy]))
      have hx := h x (by simp)
      cases x with
      | fin a => exact ⟨a + q, by rw [List.sum_cons, hq, JVal.fin_add_fin]⟩
      | nan => simp [JVal.isFinite] at hx
      | inf => simp [JVal.isFinite] at hx
      | ninf => simp [JVal.isFinite] at hx

/-- A sum of non-negative finite values is finite and non-negative. -/
theorem sum_fin_nonneg (l : List JVal) (h : ∀ x ∈ l, ∃ q : ℚ, x = JVal.fin q ∧ 0 ≤ q) :
    ∃ q : ℚ, l.sum = JVal.fin q ∧ 0 ≤ q := by
  induction l with
  | nil => exact ⟨0, rfl, le_refl 0⟩
  | cons x t ih =>
      obtain ⟨q, hq, hq0⟩ := ih (fun y hy => h y (by simp [hy]))
      obtain ⟨a, ha, ha0⟩ := h x (by simp)
      refine ⟨a + q, ?_, by positivity⟩
      rw [List.sum_cons, hq, ha, JVal.fin_add_fin]

/-! ### Field specializations

Each bucket accumulator equals the sum of its per-record contributions
over the records that hit the key (starting from the empty map). -/

theorem statsMap_revenue (l : List Booking) (k : String) :
    fieldOf Bucket.revenue (alGet (statsMap l) k) =
      ((l.filter (fun b => decide (keyOf b = k))).map finalPrice).sum := by
  have := foldl_statsStep_field Bucket.revenue finalPrice
    (fun b => rfl) (fun c b => rfl) l [] k
  simpa [statsMap, alGet, fieldOf] using this

theorem statsMap_commission (l : List Booking) (k : String) :
    fieldOf Bucket.commission (alGet (statsMap l) k) =
      ((l.filter (fun b => decide (keyOf b = k))).map finalCommission).sum := by
  have := foldl_statsStep_field Bucket.commission finalCommission
    (fun b => rfl) (fun c b => rfl) l [] k
  simpa [statsMap, alGet, fieldOf] using this

theorem sum_map_one {α : Type} (l : List α) : (l.map (fun _ => (1 : ℕ))).sum = l.length := by
  induction l with
  | nil => simp
  | cons x t ih => simp [ih, Nat.add_comm]

theorem statsMap_bookings (l : List Booking) (k : String) :
    fieldOf Bucket.bookings (alGet (statsMap l) k) =
      (l.filter (fun b => decide (keyOf b = k))).length := by
  have := foldl_statsStep_field Bucket.bookings (fun _ => (1 : ℕ))
    (fun b => rfl) (fun c b => rfl) l [] k
  rw [← sum_map_one (l.filter (fun b => decide (keyOf b = k)))]
  simpa [statsMap, alGet, fieldOf] using this

theorem statsMap_cancelled (l : List Booking) (k : String) :
    fieldOf Bucket.cancelledBookings (alGet (statsMap l) k) =
      ((l.filter (fun b => decide (keyOf b = k))).map
        (fun b => if b.cancelled then (1 : ℕ) else 0)).sum := by
  have := foldl_statsStep_field Bucket.cancelledBookings
    (fun b => if b.cancelled then (1 : ℕ) else 0)
    (fun b => rfl) (fun c b => rfl) l [] k
  simpa [statsMap, alGet, fieldOf] using this

theorem statsMap_nights (l : List Booking) (k : String) :
    fieldOf Bucket.nights (alGet (statsMap l) k) =
      ((l.filter (fun b => decide (keyOf b = k))).map finalNights).sum := by
  have := foldl_statsStep_field Bucket.nights finalNights
    (fun b => rfl) (fun c b => rfl) l [] k
  simpa [statsMap, alGet, fieldOf] using this

/-! ## Sort lemmas -/

theorem isFinite_iff_fin (x : JVal) : x.isFinite = true ↔ ∃ q : ℚ, x = JVal.fin q := by
  cases x <;> simp [JVal.isFinite]

theorem mem_insertStat (a x : CStat) (l : List CStat) :
    x ∈ insertStat a l ↔ x = a ∨ x ∈ l := by
  induction l with
  | nil => simp [insertStat]
  | cons b t ih =>
      by_cases h : sortsBefore a b = true
      · simp [insertStat, h]
      · simp only [insertStat, if_neg h, List.mem_cons, ih]
        tauto

theorem insertStat_perm (a : CStat) (l : List CStat) :
    List.Perm (insertStat a l) (a :: l) := by
  induction l with
  | nil => simp [insertStat]
  | cons b t ih =>
      by_cases h : sortsBefore a b = true
      · simp [insertStat, h]
      · rw [insertStat, if_neg h]
        exact (ih.cons b).trans (List.Perm.swap a b t)

theorem sortStats_perm (l : List CStat) : List.Perm (sortStats l) l := by
  induction l with
  | nil => exact List.Perm.refl []
  | cons a t ih => exact (insertStat_perm a (sortStats t)).trans (ih.cons a)

theorem sortStats_length (l : List CStat) : (sortStats l).length = l.length :=
  (sortStats_perm l).length_eq

/-- Descending order on finite revenues: `a` precedes `b` when both
revenues are finite and `b`'s does not exceed `a`'s. -/
def revGe (a b : CStat) : Prop :=
  ∃ p q : ℚ, a.revenue = JVal.fin p ∧ b.revenue = JVal.fin q ∧ q ≤ p

theorem sortsBefore_iff_fin (a b : CStat) (p q : ℚ)
    (ha : a.revenue = JVal.fin p) (hb : b.revenue = JVal.fin q) :
    sortsBefore a b = true ↔ q ≤ p := by
  rw [sortsBefore, ha, hb]
  simp [JVal.sub, JVal.gtZero, sub_pos, not_lt]

theorem insertStat_pairwise (a : CStat) (l : List CStat)
    (hfa : a.revenue.isFinite = true) (hfl : ∀ x ∈ l, x.revenue.isFinite = true)
    (hp : l.Pairwise revGe) : (insertStat a l).Pairwise revGe := by
  obtain ⟨pa, hpa⟩ := (isFinite_iff_fin _).mp hfa
  induction l with
  | nil => simp [insertStat]
  | cons b t ih =>
      obtain ⟨pb, hpb⟩ := (isFinite_iff_fin _).mp (hfl b (by simp))
      rw [List.pairwise_cons] at hp
      obtain ⟨hbt, hpt⟩ := hp
      by_cases h : sortsBefore a b = true
      · rw [insertStat, if_pos h]
        have hba : pb ≤ pa := (sortsBefore_iff_fin a b pa pb hpa hpb).mp h
        rw [List.pairwise_cons]
        refine ⟨?_, by rw [List.pairwise_cons]; exact ⟨hbt, hpt⟩⟩
        intro x hx
        rcases List.mem_cons.mp hx with hx | hx
        · exact hx ▸ ⟨pa, pb, hpa, hpb, hba⟩
        · obtain ⟨pb2, qx, hb2, hqx, hle⟩ := hbt x hx
          rw [hpb] at hb2
          have e : pb = pb2 := by simpa using hb2
          refine ⟨pa, qx, hpa, hqx, ?_⟩
          rw [← e] at hle
          exact le_trans hle hba
      · rw [insertStat, if_neg h]
        have hba : revGe b a := by
          refine ⟨pb, pa, hpb, hpa, ?_⟩
          have := (sortsBefore_iff_fin a b pa pb hpa hpb)
          by_contra hc
          exact h (this.mpr (le_of_not_le hc))
        rw [List.pairwise_cons]
        constructor
        · intro x hx
          rcases (mem_insertStat a x t).mp hx with hx | hx
          · exact hx ▸ hba
          · exact hbt x hx
        · exact ih (fun x hx => hfl x (by simp [hx])) hpt

theorem sortStats_pairwise (l : List CStat)
    (hf : ∀ x ∈ l, x.revenue.isFinite = true) : (sortStats l).Pairwise revGe := by
  induction l with
  | nil => simp [sortStats]
  | cons a t ih =>
      rw [sortStats]
      refine insertStat_pairwise a (sortStats t) (hf a (by simp)) ?_ ?_
      · intro x hx
        exact hf x (by simp [(sortStats_perm t).mem_iff.mp hx])
      · exact ih (fun x hx => hf x (by simp [hx]))

theorem filter_insertStat_of_before (p : CStat → Bool) (a : CStat) (l : List CStat)
    (hcomm : ∀ x, p x = true → sortsBefore a x = true) (hpa : p a = true) :
    (insertStat a l).filter p = a :: l.filter p := by
  induction l with
  | nil => simp [insertStat, hpa]
  | cons b t ih =>
      by_cases h : sortsBefore a b = true
      · rw [insertStat, if_pos h, List.filter_cons, if_pos hpa]
      · rw [insertStat, if_neg h]
        have hpb : p b = false := by
          cases hb : p b with
          | false => rfl
          | true => exact absurd (hcomm b hb) h
        rw [List.filter_cons, hpb, List.filter_cons, hpb]
        simpa using ih

theorem filter_insertStat_of_not (p : CStat → Bool) (a : CStat) (l : List CStat)
    (hpa : p a = false) : (insertStat a l).filter p = l.filter p := by
  induction l with
  | nil => simp [insertStat, hpa]
  | cons b t ih =>
      by_cases h : sortsBefore a b = true
      · rw [insertStat, if_pos h, List.filter_cons, hpa]
        simp
      · rw [insertStat, if_neg h, List.filter_cons, List.filter_cons]
        cases hb : p b <;> simp [ih]

/-- Stability of the revenue sort: the subsequence of entries having any
fixed revenue value is unchanged by sorting. -/
theorem filter_sortStats_revenue (v : ℚ) (l : List CStat) :
    (sortStats l).filter (fun x => decide (x.revenue = JVal.fin v)) =
      l.filter (fun x => decide (x.revenue = JVal.fin v)) := by
  induction l with
  | nil => simp [sortStats]
  | cons a t ih =>
      rw [sortStats]
      by_cases hpa : a.revenue = JVal.fin v
      · rw [filter_insertStat_of_before _ a (sortStats t) ?_ (by simp [hpa])]
        · rw [ih, List.filter_cons, if_pos (by simp [hpa])]
        · intro x hx
          have hxv : x.revenue = JVal.fin v := by simpa using hx
          exact (sortsBefore_iff_fin a x v v hpa hxv).mpr le_rfl
      · rw [filter_insertStat_of_not _ a (sortStats t) (by simp [hpa])]
        rw [ih, List.filter_cons, if_neg (by simp [hpa])]

/-! ## Further helper lemmas -/

/-- Appending one record updates exactly its key, by the `bumpBucket`
increment applied to the existing bucket (or a fresh one). -/
theorem statsMap_append_key (l : List Booking) (b : Booking) :
    alGet (statsMap (l ++ [b])) (keyOf b) =
      some (bumpBucket ((alGet (statsMap l) (keyOf b)).getD (freshBucket b)) b) := by
  rw [statsMap, List.foldl_append]
  show alGet (statsStep (statsMap l) b) (keyOf b) = _
  rw [statsStep, alGet_alSet, if_pos rfl]

/-- Appending one record leaves every other key untouched. -/
theorem statsMap_append_other (l : List Booking) (b : Booking) (k : String)
    (hk : keyOf b ≠ k) :
    alGet (statsMap (l ++ [b])) k = alGet (statsMap l) k := by
  rw [statsMap, List.foldl_append]
  show alGet (statsStep (statsMap l) b) k = _
  rw [statsStep, alGet_alSet, if_neg hk]

/-- Looking up a pair that is a member of a key-nodup association list. -/
theorem alGet_of_mem_nodup (m : List (String × Bucket)) (k : String) (v : Bucket)
    (hm : (k, v) ∈ m) (hnd : (m.map Prod.fst).Nodup) : alGet m k = some v := by
  induction m with
  | nil => simp at hm
  | cons h t ih =>
      obtain ⟨k0, v0⟩ := h
      rw [List.map_cons, List.nodup_cons] at hnd
      rcases List.mem_cons.mp hm with he | hm2
      · injection he with e1 e2
        subst e1; subst e2
        simp [alGet]
      · have hne : k0 ≠ k := by
          intro he
          subst he
          exact hnd.1 (by simpa using List.mem_map_of_mem Prod.fst hm2)
        rw [alGet, if_neg hne]
        exact ih hm2 hnd.2

/-- Every bucket in `calculateStats` is readable under some key. -/
theorem mem_calculateStats_alGet (data : List Booking) (c : Bucket)
    (hc : c ∈ calculateStats data) : ∃ k, alGet (statsMap data) k = some c := by
  rw [calculateStats] at hc
  obtain ⟨⟨k, v⟩, hmem, he⟩ := List.mem_map.mp hc
  simp only at he
  subst he
  exact ⟨k, alGet_of_mem_nodup _ _ _ hmem (statsMap_keys_nodup data)⟩

/-- Bucket revenues stay finite when all coerced prices are finite. -/
theorem calculateStats_revenue_finite (data : List Booking)
    (hf : ∀ b ∈ data, (priceOf b).isFinite = true) :
    ∀ c ∈ calculateStats data, c.revenue.isFinite = true := by
  intro c hc
  obtain ⟨k, hk⟩ := mem_calculateStats_alGet data c hc
  have hfield := statsMap_revenue data k
  rw [hk] at hfield
  have hproj : fieldOf Bucket.revenue (some c) = c.revenue := rfl
  rw [hproj] at hfield
  have hall : ∀ x ∈ (data.filter (fun b => decide (keyOf b = k))).map finalPrice,
      x.isFinite = true := by
    intro x hx
    obtain ⟨b, hb, he⟩ := List.mem_map.mp hx
    have hbl : b ∈ data := List.mem_of_mem_filter hb
    rw [← he]
    simp only [finalPrice]
    cases hcanc : b.cancelled with
    | true => simp [JVal.isFinite]
    | false => simpa using hf b hbl
  obtain ⟨q, hq⟩ := sum_isFinite _ hall
  rw [hfield, hq]
  rfl

/-- Bucket commissions stay finite when all coerced commissions are finite. -/
theorem calculateStats_commission_finite (data : List Booking)
    (hf : ∀ b ∈ data, (commissionOf b).isFinite = true) :
    ∀ c ∈ calculateStats data, c.commission.isFinite = true := by
  intro c hc
  obtain ⟨k, hk⟩ := mem_calculateStats_alGet data c hc
  have hfield := statsMap_commission data k
  rw [hk] at hfield
  have hproj : fieldOf Bucket.commission (some c) = c.commission := rfl
  rw [hproj] at hfield
  have hall : ∀ x ∈ (data.filter (fun b => decide (keyOf b = k))).map finalCommission,
      x.isFinite = true := by
    intro x hx
    obtain ⟨b, hb, he⟩ := List.mem_map.mp hx
    have hbl : b ∈ data := List.mem_of_mem_filter hb
    rw [← he]
    simp only [finalCommission]
    cases hcanc : b.cancelled with
    | true => simp [JVal.isFinite]
    | false => simpa using hf b hbl
  obtain ⟨q, hq⟩ := sum_isFinite _ hall
  rw [hfield, hq]
  rfl

/-- The combined row keeps the current bucket's revenue. -/
theorem combineOne_revenue (comp : List Bucket) (c : Bucket) :
    (combineOne comp c).revenue = c.revenue := by
  rw [combineOne]
  cases comp.find? (fun p => p.name = c.name) <;> rfl

/-- A relative delta against a zero prior metric is never finite. -/
theorem relDelta_zero_not_finite (x : JVal) :
    (relDelta x (JVal.fin 0)).isFinite = false := by
  cases x with
  | nan => rfl
  | inf => simp [relDelta, JVal.sub, JVal.div, JVal.isFinite]
  | ninf => simp [relDelta, JVal.sub, JVal.div, JVal.isFinite]
  | fin a =>
      simp only [relDelta, JVal.sub, JVal.div, if_pos rfl]
      split_ifs <;> rfl

/-- Counting satisfied records never exceeds the list length. -/
theorem sum_ite_le_length (l : List Booking) (p : Booking → Bool) :
    (l.map (fun b => if p b then (1 : ℕ) else 0)).sum ≤ l.length := by
  induction l with
  | nil => simp
  | cons b t ih =>
      rw [List.map_cons, List.sum_cons, List.length_cons]
      have : (if p b then (1 : ℕ) else 0) ≤ 1 := by split_ifs <;> simp
      omega

/-! ## Sample records used by counterexamples and witnesses -/

/-- Accommodation A, 100 EUR, 10 EUR commission, not cancelled. -/
def recA100 : Booking :=
  { serviceName := some "A", totalPrice := MoneyVal.num 100,
    commission := MoneyVal.num 10, cancelled := false }

/-- Accommodation A, 50 EUR, 5 EUR commission, cancelled. -/
def recA50c : Booking :=
  { serviceName := some "A", totalPrice := MoneyVal.num 50,
    commission := MoneyVal.num 5, cancelled := true }

/-- Accommodation A with zero revenue (prior-period record). -/
def recA0 : Booking :=
  { serviceName := some "A", totalPrice := MoneyVal.num 0,
    commission := MoneyVal.num 0, cancelled := false }

/-- Accommodation A located in city X. -/
def recAX : Booking := { serviceName := some "A", serviceCity := some "X" }

/-- Accommodation A located in city Y. -/
def recAY : Booking := { serviceName := some "A", serviceCity := some "Y" }

/-- Accommodation A with an unparseable string price. -/
def recBadPrice : Booking :=
  { serviceName := some "A", totalPrice := MoneyVal.str "abc",
    commission := MoneyVal.num 1, cancelled := false }

/-- A record in region Nordsee arriving 2024-01-01 (day 19723). -/
def recNordsee : Booking :=
  { serviceName := some "X", region := some "Nordsee",
    arrivalDate := some (JDate.valid 19723) }

/-- A record whose arrival date is an Invalid Date (unparseable). -/
def recInvalidDate : Booking :=
  { serviceName := some "X", arrivalDate := some JDate.invalid }

/-- Accommodation A, priced, with no arrival/departure dates. -/
def recNoDates : Booking :=
  { serviceName := some "A", totalPrice := MoneyVal.num 100,
    commission := MoneyVal.num 10, cancelled := false }

/-! ## Claims -/

/-- C5: every record contributes `+1` to `bookingCount` always, `+1` to
`cancelledCount` iff cancelled, and — exactly when not cancelled — its
coerced `totalPrice` to `totalRevenue`, its coerced `commission` to
`totalCommission`, and `max(0, days(arrival → departure))` (`nightsOf`) to
`totalNights`; no other key is affected.  The two-record example
aggregates to bucket `A` with `bookingCount = 2`, `cancelledCount = 1`,
`totalRevenue = 100`, `totalCommission = 10`, `cancellationRate = 1/2`. -/
theorem c5_contribution :
    (∀ (l : List Booking) (b : Booking) (k : String), k ≠ keyOf b →
        alGet (statsMap (l ++ [b])) k = alGet (statsMap l) k)
    ∧ (∀ (l : List Booking) (b : Booking) (cur : Bucket),
        (alGet (statsMap l) (keyOf b)).getD (freshBucket b) = cur →
        alGet (statsMap (l ++ [b])) (keyOf b) =
          some { name := cur.name, city := cur.city,
                 revenue := cur.revenue + (if b.cancelled then JVal.fin 0 else priceOf b),
                 bookings := cur.bookings + 1,
                 commission :=
                   cur.commission + (if b.cancelled then JVal.fin 0 else commissionOf b),
                 cancelledBookings :=
                   cur.cancelledBookings + (if b.cancelled then 1 else 0),
                 nights := cur.nights + (if b.cancelled then 0 else nightsOf b) })
    ∧ calculateStats [recA100, recA50c] =
        [{ name := "A", city := "Unbekannt", revenue := JVal.fin 100, bookings := 2,
           commission := JVal.fin 10, cancelledBookings := 1, nights := 0 }]
    ∧ cancellationRate
        { name := "A", city := "Unbekannt", revenue := JVal.fin 100, bookings := 2,
          commission := JVal.fin 10, cancelledBookings := 1, nights := 0 } = 1 / 2 := by
  refine ⟨?_, ?_, ?_, ?_⟩
  · intro l b k hk
    exact statsMap_append_other l b k (fun he => hk he.symm)
  · intro l b cur hcur
    rw [statsMap_append_key, hcur]
    rfl
  · simp +decide [calculateStats, statsMap, statsStep, alGet, alSet, bumpBucket, freshBucket,
      keyOf, cityOf, orFalsy, nightsOf, priceOf, commissionOf, coerceMoney,
      finalPrice, finalCommission, finalNights, recA100, recA50c, JVal.add_def, JVal.add]
  · norm_num [cancellationRate]

/-- Witness for C5 at a concrete input. -/
theorem c5_contribution_witness :
    ("B" ≠ keyOf recA50c ∧
      alGet (statsMap ([recA100] ++ [recA50c])) "B" = alGet (statsMap [recA100]) "B")
    ∧ alGet (statsMap ([recA100] ++ [recA50c])) (keyOf recA50c) =
        some { name := "A", city := "Unbekannt",
               revenue := JVal.fin 100 +
                 (if recA50c.cancelled then JVal.fin 0 else priceOf recA50c),
               bookings := 1 + 1,
               commission := JVal.fin 10 +
                 (if recA50c.cancelled then JVal.fin 0 else commissionOf recA50c),
               cancelledBookings := 0 + (if recA50c.cancelled then 1 else 0),
               nights := 0 + (if recA50c.cancelled then 0 else nightsOf recA50c) } := by
  constructor
  · exact ⟨by decide, c5_contribution.1 [recA100] recA50c "B" (by decide)⟩
  · exact c5_contribution.2.1 [recA100] recA50c
      { name := "A", city := "Unbekannt", revenue := JVal.fin 100, bookings := 1,
        commission := JVal.fin 10, cancelledBookings := 0, nights := 0 }
      (by simp +decide [statsMap, statsStep, alGet, alSet, bumpBucket, freshBucket,
            keyOf, cityOf, orFalsy, nightsOf, priceOf, commissionOf, coerceMoney,
            finalPrice, finalCommission, finalNights, recA100, recA50c,
            JVal.add_def, JVal.add])

/-- C9: a bucket's `city` is the `serviceCity` (or `Unbekannt` fallback) of
the first record in iteration order with that key, unaffected by later
records; records without a `serviceName` (or with an empty one) all group
under the key `Unbekannt`, and a missing `serviceCity` falls back to
`Unbekannt`. -/
theorem c9_city_grouping :
    (∀ (l : List Booking) (k : String),
        (alGet (statsMap l) k).map Bucket.city =
          (l.find? (fun b => decide (keyOf b = k))).map cityOf)
    ∧ (∀ b : Booking, b.serviceName = none → keyOf b = "Unbekannt")
    ∧ (∀ b : Booking, b.serviceCity = none → cityOf b = "Unbekannt") := by
  refine ⟨?_, ?_, ?_⟩
  · intro l k
    have := foldl_statsStep_city l [] k
    simpa [statsMap, alGet, Option.or] using this
  · intro b hb
    rw [keyOf, hb]
    rfl
  · intro b hb
    rw [cityOf, hb]
    rfl

/-- Witness for C9 at a concrete input: two A-records with different
cities; the bucket keeps the first city. -/
theorem c9_city_grouping_witness :
    ((alGet (statsMap [recAX, recAY]) "A").map Bucket.city =
      ([recAX, recAY].find? (fun b => decide (keyOf b = "A"))).map cityOf)
    ∧ keyOf { serviceName := none } = "Unbekannt" :=
  ⟨c9_city_grouping.1 [recAX, recAY] "A", c9_city_grouping.2.1 _ rfl⟩

/-- C10: a non-cancelled record missing its arrival or departure date
contributes `0` nights while still counting one booking and contributing
its price and commission; the computation is total (the embedded nights
computation returns `0`, mirroring the `try/catch`-protected source). -/
theorem c10_missing_dates (l : List Booking) (b : Booking) (cur : Bucket)
    (hc : b.cancelled = false)
    (hd : b.arrivalDate = none ∨ b.departureDate = none)
    (hcur : (alGet (statsMap l) (keyOf b)).getD (freshBucket b) = cur) :
    nightsOf b = 0
    ∧ alGet (statsMap (l ++ [b])) (keyOf b) =
        some { name := cur.name, city := cur.city,
               revenue := cur.revenue + priceOf b,
               bookings := cur.bookings + 1,
               commission := cur.commission + commissionOf b,
               cancelledBookings := cur.cancelledBookings,
               nights := cur.nights } := by
  have hn : nightsOf b = 0 := by
    rcases hd with h | h
    · simp [nightsOf, h]
    · rcases ha : b.arrivalDate with _ | jd
      · simp [nightsOf, ha]
      · cases jd <;> simp [nightsOf, ha, h]
  refine ⟨hn, ?_⟩
  rw [statsMap_append_key, hcur]
  simp [bumpBucket, finalPrice, finalCommission, finalNights, hc, hn]

/-- Witness for C10 at a concrete input. -/
theorem c10_missing_dates_witness :
    (recNoDates.cancelled = false
      ∧ (recNoDates.arrivalDate = none ∨ recNoDates.departureDate = none))
    ∧ nightsOf recNoDates = 0
    ∧ alGet (statsMap ([] ++ [recNoDates])) (keyOf recNoDates) =
        some { name := (freshBucket recNoDates).name, city := (freshBucket recNoDates).city,
               revenue := (freshBucket recNoDates).revenue + priceOf recNoDates,
               bookings := (freshBucket recNoDates).bookings + 1,
               commission := (freshBucket recNoDates).commission + commissionOf recNoDates,
               cancelledBookings := (freshBucket recNoDates).cancelledBookings,
               nights := (freshBucket recNoDates).nights } :=
  ⟨⟨rfl, Or.inl rfl⟩,
    c10_missing_dates [] recNoDates (freshBucket recNoDates) rfl (Or.inl rfl) rfl⟩

/-- The numeric accumulators of a bucket (everything except the
first-record-dependent `name`/`city` metadata). -/
def numView (bk : Bucket) : JVal × ℕ × JVal × ℕ × ℕ :=
  (bk.revenue, bk.bookings, bk.commission, bk.cancelledBookings, bk.nights)

/-- C4 as stated is false: the bucket `city` comes from the first record
in iteration order, so permuting two A-records with different cities
changes the bucket contents. -/
theorem c4_counterexample :
    List.Perm [recAX, recAY] [recAY, recAX]
    ∧ (alGet (statsMap [recAX, recAY]) "A").map Bucket.city = some "X"
    ∧ (alGet (statsMap [recAY, recAX]) "A").map Bucket.city = some "Y"
    ∧ statsMap [recAX, recAY] ≠ statsMap [recAY, recAX] := by
  have hx : (alGet (statsMap [recAX, recAY]) "A").map Bucket.city = some "X" := by
    simp +decide [statsMap, statsStep, alGet, alSet, bumpBucket, freshBucket,
      keyOf, cityOf, orFalsy, recAX, recAY]
  have hy : (alGet (statsMap [recAY, recAX]) "A").map Bucket.city = some "Y" := by
    simp +decide [statsMap, statsStep, alGet, alSet, bumpBucket, freshBucket,
      keyOf, cityOf, orFalsy, recAX, recAY]
  refine ⟨List.Perm.swap recAY recAX [], hx, hy, ?_⟩
  intro he
  rw [he, hy] at hx
  simp at hx

/-- C4 amended: aggregation of a permuted record list yields the same key
set and, for every key, identical numeric accumulators (`totalRevenue`,
`bookingCount`, `totalCommission`, `cancelledCount`, `totalNights`); only
the first-record-dependent `city` metadata may differ. -/
theorem c4_perm_invariant (l1 l2 : List Booking) (h : List.Perm l1 l2) (k : String) :
    (alGet (statsMap l1) k).map numView = (alGet (statsMap l2) k).map numView := by
  have hfilter := h.filter (fun b => decide (keyOf b = k))
  have hmemiff : (alGet (statsMap l1) k = none) ↔ (alGet (statsMap l2) k = none) := by
    rw [alGet_statsMap_eq_none, alGet_statsMap_eq_none]
    constructor
    · intro hall b hb
      exact hall b (h.mem_iff.mpr hb)
    · intro hall b hb
      exact hall b (h.mem_iff.mp hb)
  cases h1 : alGet (statsMap l1) k with
  | none =>
      have h2 : alGet (statsMap l2) k = none := hmemiff.mp h1
      rw [h2]
  | some b1 =>
      cases h2 : alGet (statsMap l2) k with
      | none =>
          have := hmemiff.mpr h2
          rw [h1] at this
          exact absurd this (by simp)
      | some b2 =>
          have hrev : b1.revenue = b2.revenue := by
            have e1 := statsMap_revenue l1 k
            have e2 := statsMap_revenue l2 k
            rw [h1] at e1; rw [h2] at e2
            rw [show fieldOf Bucket.revenue (some b1) = b1.revenue from rfl] at e1
            rw [show fieldOf Bucket.revenue (some b2) = b2.revenue from rfl] at e2
            rw [e1, e2]
            exact (hfilter.map finalPrice).sum_eq
          have hcom : b1.commission = b2.commission := by
            have e1 := statsMap_commission l1 k
            have e2 := statsMap_commission l2 k
            rw [h1] at e1; rw [h2] at e2
            rw [show fieldOf Bucket.commission (some b1) = b1.commission from rfl] at e1
            rw [show fieldOf Bucket.commission (some b2) = b2.commission from rfl] at e2
            rw [e1, e2]
            exact (hfilter.map finalCommission).sum_eq
          have hbook : b1.bookings = b2.bookings := by
            have e1 := statsMap_bookings l1 k
            have e2 := statsMap_bookings l2 k
            rw [h1] at e1; rw [h2] at e2
            rw [show fieldOf Bucket.bookings (some b1) = b1.bookings from rfl] at e1
            rw [show fieldOf Bucket.bookings (some b2) = b2.bookings from rfl] at e2
            rw [e1, e2]
            exact hfilter.length_eq
          have hcanc : b1.cancelledBookings = b2.cancelledBookings := by
            have e1 := statsMap_cancelled l1 k
            have e2 := statsMap_cancelled l2 k
            rw [h1] at e1; rw [h2] at e2
            rw [show fieldOf Bucket.cancelledBookings (some b1) = b1.cancelledBookings
              from rfl] at e1
            rw [show fieldOf Bucket.cancelledBookings (some b2) = b2.cancelledBookings
              from rfl] at e2
            rw [e1, e2]
            exact (hfilter.map (fun b => if b.cancelled then (1 : ℕ) else 0)).sum_eq
          have hnig : b1.nights = b2.nights := by
            have e1 := statsMap_nights l1 k
            have e2 := statsMap_nights l2 k
            rw [h1] at e1; rw [h2] at e2
            rw [show fieldOf Bucket.nights (some b1) = b1.nights from rfl] at e1
            rw [show fieldOf Bucket.nights (some b2) = b2.nights from rfl] at e2
            rw [e1, e2]
            exact (hfilter.map finalNights).sum_eq
          simp [numView, hrev, hcom, hbook, hcanc, hnig]

/-- Witness for the amended C4 at a concrete permutation. -/
theorem c4_perm_invariant_witness :
    List.Perm [recAX, recAY] [recAY, recAX]
    ∧ (alGet (statsMap [recAX, recAY]) "A").map numView =
        (alGet (statsMap [recAY, recAX]) "A").map numView :=
  ⟨List.Perm.swap recAY recAX [],
    c4_perm_invariant [recAX, recAY] [recAY, recAX] (List.Perm.swap recAY recAX []) "A"⟩

/-- C8: for every bucket, `cancelledCount <= bookingCount`, and the
revenue/commission/nights accumulators are non-negative.  The monetary
hypothesis is the data-model invariant: every record's price and
commission coerce to a non-negative finite number. -/
theorem c8_invariants (l : List Booking)
    (h : ∀ b ∈ l, (∃ q : ℚ, priceOf b = JVal.fin q ∧ 0 ≤ q)
      ∧ (∃ q : ℚ, commissionOf b = JVal.fin q ∧ 0 ≤ q)) :
    ∀ s ∈ calculateStats l,
      s.cancelledBookings ≤ s.bookings
      ∧ (∃ q : ℚ, s.revenue = JVal.fin q ∧ 0 ≤ q)
      ∧ (∃ q : ℚ, s.commission = JVal.fin q ∧ 0 ≤ q)
      ∧ 0 ≤ s.nights := by
  intro s hs
  obtain ⟨k, hk⟩ := mem_calculateStats_alGet l s hs
  have hcanc := statsMap_cancelled l k
  have hbook := statsMap_bookings l k
  have hrev := statsMap_revenue l k
  have hcom := statsMap_commission l k
  rw [hk] at hcanc hbook hrev hcom
  rw [show fieldOf Bucket.cancelledBookings (some s) = s.cancelledBookings from rfl] at hcanc
  rw [show fieldOf Bucket.bookings (some s) = s.bookings from rfl] at hbook
  rw [show fieldOf Bucket.revenue (some s) = s.revenue from rfl] at hrev
  rw [show fieldOf Bucket.commission (some s) = s.commission from rfl] at hcom
  refine ⟨?_, ?_, ?_, Nat.zero_le _⟩
  · rw [hcanc, hbook]
    exact sum_ite_le_length _ _
  · rw [hrev]
    refine sum_fin_nonneg _ ?_
    intro x hx
    obtain ⟨b, hb, he⟩ := List.mem_map.mp hx
    have hbl : b ∈ l := List.mem_of_mem_filter hb
    rw [← he]
    simp only [finalPrice]
    cases hcb : b.cancelled with
    | true => exact ⟨0, by simp, le_refl 0⟩
    | false => simpa using (h b hbl).1
  · rw [hcom]
    refine sum_fin_nonneg _ ?_
    intro x hx
    obtain ⟨b, hb, he⟩ := List.mem_map.mp hx
    have hbl : b ∈ l := List.mem_of_mem_filter hb
    rw [← he]
    simp only [finalCommission]
    cases hcb : b.cancelled with
    | true => exact ⟨0, by simp, le_refl 0⟩
    | false => simpa using (h b hbl).2

/-- The aggregated bucket of `[recA100, recA50c]`. -/
def bkA2 : Bucket :=
  { name := "A", city := "Unbekannt", revenue := JVal.fin 100, bookings := 2,
    commission := JVal.fin 10, cancelledBookings := 1, nights := 0 }

/-- Witness for C8 at a concrete input. -/
theorem c8_invariants_witness :
    bkA2.cancelledBookings ≤ bkA2.bookings
    ∧ (∃ q : ℚ, bkA2.revenue = JVal.fin q ∧ 0 ≤ q)
    ∧ (∃ q : ℚ, bkA2.commission = JVal.fin q ∧ 0 ≤ q)
    ∧ 0 ≤ bkA2.nights := by
  have hmem : bkA2 ∈ calculateStats [recA100, recA50c] := by
    simp +decide [calculateStats, statsMap, statsStep, alGet, alSet, bumpBucket,
      freshBucket, keyOf, cityOf, orFalsy, nightsOf, priceOf, commissionOf,
      coerceMoney, finalPrice, finalCommission, finalNights, recA100, recA50c,
      bkA2, JVal.add_def, JVal.add]
  refine c8_invariants [recA100, recA50c] ?_ bkA2 hmem
  intro b hb
  rcases List.mem_cons.mp hb with he | hb2
  · subst he
    exact ⟨⟨100, rfl, by norm_num⟩, ⟨10, rfl, by norm_num⟩⟩
  · rcases List.mem_cons.mp hb2 with he | hb3
    · subst he
      exact ⟨⟨50, rfl, by norm_num⟩, ⟨5, rfl, by norm_num⟩⟩
    · simp at hb3

/-- C2 as stated is false: a non-empty unparseable string price is run
through `parseFloat`, which yields `NaN`, and `NaN` (not zero) is
accumulated into `totalRevenue`. -/
theorem c2_counterexample :
    (calculateStats [recBadPrice]).map Bucket.revenue = [JVal.nan]
    ∧ JVal.nan ≠ JVal.fin 0
    ∧ JVal.nan.isFinite = false := by
  refine ⟨?_, by decide, rfl⟩
  simp +decide [calculateStats, statsMap, statsStep, alGet, alSet, bumpBucket, freshBucket,
    keyOf, cityOf, orFalsy, nightsOf, priceOf, commissionOf, coerceMoney,
    finalPrice, finalCommission, finalNights, recBadPrice, JVal.add_def, JVal.add]

/-- C2 amended: string prices/commissions are coerced with `parseFloat`;
missing or empty-string values contribute exactly zero, and whenever every
record's coerced price and commission is finite (numbers, and strings with
a parseable numeric literal), every bucket sum stays finite — but a
non-empty string that does not parse contributes `NaN`, so the sum can be
`NaN` (the aggregation still completes; it never throws). -/
theorem c2_coercion (l : List Booking)
    (h : ∀ b ∈ l, (priceOf b).isFinite = true ∧ (commissionOf b).isFinite = true) :
    coerceMoney MoneyVal.missing = JVal.fin 0
    ∧ coerceMoney (MoneyVal.str "") = JVal.fin 0
    ∧ ∀ s ∈ calculateStats l, s.revenue.isFinite = true ∧ s.commission.isFinite = true := by
  refine ⟨?_, ?_, ?_⟩
  · show jsParseFloat "0" = JVal.fin 0
    simp [jsParseFloat, parseMantissa, digitsToNat, parseExpPart]
  · show jsParseFloat "0" = JVal.fin 0
    simp [jsParseFloat, parseMantissa, digitsToNat, parseExpPart]
  · intro s hs
    exact ⟨calculateStats_revenue_finite l (fun b hb => (h b hb).1) s hs,
      calculateStats_commission_finite l (fun b hb => (h b hb).2) s hs⟩

/-- Witness for the amended C2 at a concrete input. -/
theorem c2_coercion_witness :
    coerceMoney MoneyVal.missing = JVal.fin 0
    ∧ coerceMoney (MoneyVal.str "") = JVal.fin 0
    ∧ ∀ s ∈ calculateStats [recA100],
        s.revenue.isFinite = true ∧ s.commission.isFinite = true := by
  refine c2_coercion [recA100] ?_
  intro b hb
  rcases List.mem_cons.mp hb with he | hb2
  · subst he
    exact ⟨rfl, rfl⟩
  · simp at hb2

/-- C1 as stated is false: when the prior bucket exists but has zero
revenue, `revenueChange` is not left unset; it is set to `Infinity`. -/
theorem c1_counterexample :
    (accommodationStats [recA100] (some [recA0])).map CStat.revenueChange = [some JVal.inf]
    ∧ some JVal.inf ≠ (none : Option JVal)
    ∧ JVal.inf.isFinite = false := by
  refine ⟨?_, by decide, rfl⟩
  simp +decide [accommodationStats, comparisonStatsOf, rankTop, sortStats, insertStat,
    combineStats, combineOne, relDelta, calculateStats, statsMap, statsStep, alGet,
    alSet, bumpBucket, freshBucket, keyOf, cityOf, orFalsy, nightsOf, priceOf,
    commissionOf, coerceMoney, finalPrice, finalCommission, finalNights, recA100,
    recA0, JVal.add_def, JVal.add, JVal.sub, JVal.div]

/-- C1 amended: a delta field is left unset exactly when the prior mapping
lacks the key; when a prior bucket exists, every delta field is set by an
unguarded division, and with a zero prior revenue the `revenueChange`
value is non-finite (`Infinity`, `-Infinity` or `NaN`) instead of unset. -/
theorem c1_delta_unset_iff (cur comp : List Bucket) (c : Bucket) (hc : c ∈ cur) :
    combineOne comp c ∈ combineStats cur comp
    ∧ ((combineOne comp c).revenueChange = none
        ↔ comp.find? (fun p => p.name = c.name) = none)
    ∧ ((combineOne comp c).bookingsChange = none
        ↔ comp.find? (fun p => p.name = c.name) = none)
    ∧ ((combineOne comp c).commissionChange = none
        ↔ comp.find? (fun p => p.name = c.name) = none)
    ∧ ((combineOne comp c).cancellationRateChange = none
        ↔ comp.find? (fun p => p.name = c.name) = none)
    ∧ ((combineOne comp c).nightsChange = none
        ↔ comp.find? (fun p => p.name = c.name) = none)
    ∧ (∀ p : Bucket, comp.find? (fun p2 => p2.name = c.name) = some p →
        p.revenue = JVal.fin 0 →
        ∃ v : JVal, (combineOne comp c).revenueChange = some v ∧ v.isFinite = false) := by
  refine ⟨List.mem_map.mpr ⟨c, hc, rfl⟩, ?_, ?_, ?_, ?_, ?_, ?_⟩
  · cases hf : comp.find? (fun p => p.name = c.name) with
    | none => simp [combineOne, hf]
    | some p => simp [combineOne, hf]
  · cases hf : comp.find? (fun p => p.name = c.name) with
    | none => simp [combineOne, hf]
    | some p => simp [combineOne, hf]
  · cases hf : comp.find? (fun p => p.name = c.name) with
    | none => simp [combineOne, hf]
    | some p => simp [combineOne, hf]
  · cases hf : comp.find? (fun p => p.name = c.name) with
    | none => simp [combineOne, hf]
    | some p => simp [combineOne, hf]
  · cases hf : comp.find? (fun p => p.name = c.name) with
    | none => simp [combineOne, hf]
    | some p => simp [combineOne, hf]
  · intro p hp hrev
    refine ⟨relDelta c.revenue p.revenue, by simp [combineOne, hp], ?_⟩
    rw [hrev]
    exact relDelta_zero_not_finite c.revenue

/-- The aggregated bucket of `[recA100]`. -/
def bkA100 : Bucket :=
  { name := "A", city := "Unbekannt", revenue := JVal.fin 100, bookings := 1,
    commission := JVal.fin 10, cancelledBookings := 0, nights := 0 }

/-- The aggregated bucket of `[recA0]`: zero revenue. -/
def bkA0 : Bucket :=
  { name := "A", city := "Unbekannt", revenue := JVal.fin 0, bookings := 1,
    commission := JVal.fin 0, cancelledBookings := 0, nights := 0 }

/-- Witness for the amended C1 at a concrete input. -/
theorem c1_delta_unset_iff_witness :
    ∃ v : JVal, (combineOne [bkA0] bkA100).revenueChange = some v ∧ v.isFinite = false :=
  (c1_delta_unset_iff [bkA100] [bkA0] bkA100 (by simp)).2.2.2.2.2.2 bkA0
    (by simp +decide [List.find?, bkA0, bkA100]) rfl

/-- C3: evaluation at the failing input.  With the sentinel
`"Alle Regionen"` selected, a Nordsee record of the selected year is
excluded: the code compares the sentinel literally instead of letting all
regions pass (only the empty string passes everything, and a literal
region match passes). -/
theorem c3_region_sentinel_eval :
    filteredData [recNordsee] true 2024 none none "Alle Regionen" = []
    ∧ filteredData [recNordsee] true 2024 none none "" = [recNordsee]
    ∧ filteredData [recNordsee] true 2024 none none "Nordsee" = [recNordsee]
    ∧ regionPass "Alle Regionen" recNordsee = false := by
  refine ⟨by decide, by decide, by decide, by decide⟩

/-- C6 as stated is false: in date mode with no complete date range the
arrival date is never inspected, so a record with an unparseable (invalid)
date is included, not excluded. -/
theorem c6_counterexample :
    jsNewDate recInvalidDate.arrivalDate = JDate.invalid
    ∧ filteredData [recInvalidDate] false 2024 none none "" = [recInvalidDate] :=
  ⟨rfl, by decide⟩

/-- C6 amended: the filter is total and returns a sublist of its input
(the `try/catch` is modelled by explicit `false` results, so nothing
propagates to the caller), and a record with an unparseable arrival date
is excluded whenever the date is consulted: always in year mode, and in
date mode whenever both range endpoints are present; with an incomplete
range the date is not inspected and such a record can pass. -/
theorem c6_filter_safety (data : List Booking) (b : Booking) (iy : Bool) (y : ℤ)
    (rs re : Option JDate) (sel : String)
    (hbad : jsNewDate b.arrivalDate = JDate.invalid) :
    List.Sublist (filteredData data iy y rs re sel) data
    ∧ (iy = true → b ∉ filteredData data iy y rs re sel)
    ∧ (∀ ds de : JDate, rs = some ds → re = some de →
        b ∉ filteredData data iy y rs re sel) := by
  have hyear : ∀ (y2 : ℤ) (sel2 : String), yearPred y2 sel2 b = false := by
    intro y2 sel2
    simp only [yearPred]
    rw [hbad]
    rfl
  have hdate : ∀ ds de : JDate, datePred (some ds) (some de) sel b = false := by
    intro ds de
    cases ds with
    | invalid => cases de <;> rfl
    | valid s =>
        cases de with
        | invalid => rfl
        | valid e =>
            simp only [datePred]
            rw [hbad]
            split_ifs <;> simp
  refine ⟨?_, ?_, ?_⟩
  · cases iy <;> simp only [filteredData, if_true, if_false, Bool.false_eq_true] <;>
      exact List.filter_sublist _
  · intro hiy
    subst hiy
    simp only [filteredData, if_true]
    intro hmem
    have := (List.mem_filter.mp hmem).2
    rw [hyear y sel] at this
    exact absurd this (by simp)
  · intro ds de hrs hre hmem
    cases iy with
    | true =>
        simp only [filteredData, if_true] at hmem
        have := (List.mem_filter.mp hmem).2
        rw [hyear y sel] at this
        exact absurd this (by simp)
    | false =>
        simp only [filteredData, Bool.false_eq_true, if_false] at hmem
        have := (List.mem_filter.mp hmem).2
        rw [hrs, hre, hdate ds de] at this
        exact absurd this (by simp)

/-- Witness for the amended C6 at a concrete input. -/
theorem c6_filter_safety_witness :
    (jsNewDate recInvalidDate.arrivalDate = JDate.invalid)
    ∧ (List.Sublist (filteredData [recInvalidDate] true 2024 none none "") [recInvalidDate]
      ∧ (true = true → recInvalidDate ∉ filteredData [recInvalidDate] true 2024 none none "")
      ∧ (∀ ds de : JDate, (none : Option JDate) = some ds → (none : Option JDate) = some de →
          recInvalidDate ∉ filteredData [recInvalidDate] true 2024 none none "")) :=
  ⟨rfl, c6_filter_safety [recInvalidDate] recInvalidDate true 2024 none none "" rfl⟩

/-- C7: the ranked output has length `min 30 (number of buckets)`, the
bucket keys are distinct and are exactly the keys of the input records,
the output is sorted non-increasingly by revenue, and the sort is stable:
restricted to any fixed revenue value, the ranked output is an
order-preserving sublist of the combined list in original iteration
order.  The hypothesis is the data-model invariant that coerced prices
are finite numbers. -/
theorem c7_ranker (data : List Booking) (comp : Option (List Booking))
    (hfin : ∀ b ∈ data, (priceOf b).isFinite = true) :
    (accommodationStats data comp).length = min 30 (calculateStats data).length
    ∧ ((statsMap data).map Prod.fst).Nodup
    ∧ (∀ k : String, ¬alGet (statsMap data) k = none ↔ ∃ b ∈ data, keyOf b = k)
    ∧ (accommodationStats data comp).Pairwise revGe
    ∧ (∀ v : ℚ, List.Sublist
        ((accommodationStats data comp).filter (fun s => decide (s.revenue = JVal.fin v)))
        ((combineStats (calculateStats data) (comparisonStatsOf comp)).filter
          (fun s => decide (s.revenue = JVal.fin v)))) := by
  have hcomb : ∀ s ∈ combineStats (calculateStats data) (comparisonStatsOf comp),
      s.revenue.isFinite = true := by
    intro s hs
    obtain ⟨c, hc, he⟩ := List.mem_map.mp hs
    rw [← he, combineOne_revenue]
    exact calculateStats_revenue_finite data hfin c hc
  refine ⟨?_, statsMap_keys_nodup data, ?_, ?_, ?_⟩
  · rw [accommodationStats, rankTop, List.length_take, sortStats_length, combineStats,
      List.length_map]
  · intro k
    rw [alGet_statsMap_eq_none]
    push_neg
    rfl
  · have hsorted := sortStats_pairwise _ hcomb
    exact List.Pairwise.sublist (List.take_sublist 30 _) hsorted
  · intro v
    have hs := filter_sortStats_revenue v
      (combineStats (calculateStats data) (comparisonStatsOf comp))
    rw [accommodationStats, rankTop, ← hs]
    exact List.Sublist.filter _ (List.take_sublist 30 _)

/-- Witness for C7 at a concrete input. -/
theorem c7_ranker_witness :
    (accommodationStats [recA100, recA50c] none).length =
      min 30 (calculateStats [recA100, recA50c]).length
    ∧ (accommodationStats [recA100, recA50c] none).Pairwise revGe := by
  have hf : ∀ b ∈ [recA100, recA50c], (priceOf b).isFinite = true := by
    intro b hb
    rcases List.mem_cons.mp hb with he | hb2
    · subst he
      rfl
    · rcases List.mem_cons.mp hb2 with he | hb3
      · subst he
        rfl
      · simp at hb3
  exact ⟨(c7_ranker [recA100, recA50c] none hf).1,
    (c7_ranker [recA100, recA50c] none hf).2.2.2.1⟩
